import Mathlib

/-!
Verification of the seconn secure-connection layer (final AES-GCM/HKDF
variant of the source).  The development shallowly embeds the connection
state machine: the key schedule, the AEAD half-contexts with their nonce
counters, the record framing of the read and write paths, the rekey gate,
the handshake, and the auth-token sublayer.  External cryptographic
libraries used by the source are handled as follows: HKDF-SHA-512,
HMAC-SHA-256 and HMAC-SHA-512 are implemented in full (bytes are `Nat`
values below 256, machine words are `Nat` reduced mod the word size);
curve25519 scalar multiplication and the AES-GCM AEAD are injected as
function parameters, mirroring the fact that the source manipulates them
only through opaque interfaces (`cipher.AEAD`) and library calls.
-/

namespace Seconn

/-! ## Bytes and big-endian words -/

/-- Combine a big-endian byte list into a natural number. -/
def beWord : List Nat → Nat
  | [] => 0
  | b :: rest => b * 2 ^ (8 * rest.length) + beWord rest

/-- The `n` big-endian bytes of `x` (most significant first), as in
`binary.BigEndian.PutUint32` and the SHA length fields. -/
def beBytes (n : Nat) (x : Nat) : List Nat :=
  match n with
  | 0 => []
  | m + 1 => (x >>> (8 * m)) % 256 :: beBytes m x

/-- Read a 32-bit big-endian integer from the front of a byte list, as
`binary.BigEndian.Uint32` does (the Go call panics on fewer than 4 bytes;
all uses below supply exactly 4). -/
def uint32BE (bs : List Nat) : Nat := beWord (bs.take 4)

/-- Split a list into consecutive pieces of `k` elements; fuel-driven so
that the kernel can evaluate it.  `fuel ≥ xs.length` gives all pieces. -/
def chunksF : Nat → Nat → List Nat → List (List Nat)
  | 0, _, _ => []
  | _, _, [] => []
  | fuel + 1, k, xs => xs.take k :: chunksF fuel k (xs.drop k)

/-! ## SHA-512 (used by the HKDF key schedule) -/

def w64 : Nat := 2 ^ 64

def rotr64 (x n : Nat) : Nat :=
  ((x >>> n) ||| (x <<< (64 - n))) % w64

def not64 (x : Nat) : Nat := w64 - 1 - x

def sha512K : List Nat := [
  4794697086780616226, 8158064640168781261, 13096744586834688815, 16840607885511220156,
  4131703408338449720, 6480981068601479193, 10538285296894168987, 12329834152419229976,
  15566598209576043074, 1334009975649890238, 2608012711638119052, 6128411473006802146,
  8268148722764581231, 9286055187155687089, 11230858885718282805, 13951009754708518548,
  16472876342353939154, 17275323862435702243, 1135362057144423861, 2597628984639134821,
  3308224258029322869, 5365058923640841347, 6679025012923562964, 8573033837759648693,
  10970295158949994411, 12119686244451234320, 12683024718118986047, 13788192230050041572,
  14330467153632333762, 15395433587784984357, 489312712824947311, 1452737877330783856,
  2861767655752347644, 3322285676063803686, 5560940570517711597, 5996557281743188959,
  7280758554555802590, 8532644243296465576, 9350256976987008742, 10552545826968843579,
  11727347734174303076, 12113106623233404929, 14000437183269869457, 14369950271660146224,
  15101387698204529176, 15463397548674623760, 17586052441742319658, 1182934255886127544,
  1847814050463011016, 2177327727835720531, 2830643537854262169, 3796741975233480872,
  4115178125766777443, 5681478168544905931, 6601373596472566643, 7507060721942968483,
  8399075790359081724, 8693463985226723168, 9568029438360202098, 10144078919501101548,
  10430055236837252648, 11840083180663258601, 13761210420658862357, 14299343276471374635,
  14566680578165727644, 15097957966210449927, 16922976911328602910, 17689382322260857208,
  500013540394364858, 748580250866718886, 1242879168328830382, 1977374033974150939,
  2944078676154940804, 3659926193048069267, 4368137639120453308, 4836135668995329356,
  5532061633213252278, 6448918945643986474, 6902733635092675308, 7801388544844847127
]

def sha512H0 : List Nat := [
  7640891576956012808, 13503953896175478587,
  4354685564936845355, 11912009170470909681,
  5840696475078001361, 11170449401992604703,
  2270897969802886507, 6620516959819538809
]

def bigSigma512_0 (x : Nat) : Nat := rotr64 x 28 ^^^ rotr64 x 34 ^^^ rotr64 x 39
def bigSigma512_1 (x : Nat) : Nat := rotr64 x 14 ^^^ rotr64 x 18 ^^^ rotr64 x 41
def smallSigma512_0 (x : Nat) : Nat := rotr64 x 1 ^^^ rotr64 x 8 ^^^ (x >>> 7)
def smallSigma512_1 (x : Nat) : Nat := rotr64 x 19 ^^^ rotr64 x 61 ^^^ (x >>> 6)

def chF64 (x y z : Nat) : Nat := (x &&& y) ^^^ (not64 x &&& z)
def majF64 (x y z : Nat) : Nat := (x &&& y) ^^^ (x &&& z) ^^^ (y &&& z)

/-- One step of the SHA-512 message schedule; `acc` holds the words most
recent first. -/
def schedStep512 (acc : List Nat) : List Nat :=
  let t2 := acc.getD 1 0
  let t7 := acc.getD 6 0
  let t15 := acc.getD 14 0
  let t16 := acc.getD 15 0
  ((smallSigma512_1 t2 + t7 + smallSigma512_0 t15 + t16) % w64) :: acc

def schedExtend512 : Nat → List Nat → List Nat
  | 0, acc => acc
  | n + 1, acc => schedExtend512 n (schedStep512 acc)

/-- The 80-word SHA-512 message schedule of a block of 16 words. -/
def schedule512 (ws16 : List Nat) : List Nat :=
  (schedExtend512 64 ws16.reverse).reverse

/-- One round of SHA-512 compression; the state is `[a,b,c,d,e,f,g,h]`. -/
def round512 (st : List Nat) (kw : Nat × Nat) : List Nat :=
  match st with
  | [a, b, c, d, e, f, g, h] =>
    let t1 := (h + bigSigma512_1 e + chF64 e f g + kw.1 + kw.2) % w64
    let t2 := (bigSigma512_0 a + majF64 a b c) % w64
    [(t1 + t2) % w64, a, b, c, (d + t1) % w64, e, f, g]
  | other => other

def compress512 (hst : List Nat) (block : List Nat) : List Nat :=
  let ws := schedule512 ((chunksF block.length 8 block).map beWord)
  let st := (sha512K.zip ws).foldl round512 hst
  (hst.zip st).map (fun p => (p.1 + p.2) % w64)

/-- SHA-512 padding: a 0x80 byte, zeros, and the 16-byte big-endian bit
length, to a multiple of 128 bytes. -/
def pad512 (msg : List Nat) : List Nat :=
  let l := msg.length
  msg ++ [0x80] ++ List.replicate ((128 - (l + 17) % 128) % 128) 0 ++ beBytes 16 (8 * l)

def sha512 (msg : List Nat) : List Nat :=
  let padded := pad512 msg
  ((chunksF padded.length 128 padded).foldl compress512 sha512H0).flatMap (beBytes 8)

def hmacSha512 (key msg : List Nat) : List Nat :=
  let k0 := if key.length > 128 then sha512 key else key
  let kp := k0 ++ List.replicate (128 - k0.length) 0
  sha512 ((kp.map (fun b => b ^^^ 0x5c)) ++ sha512 ((kp.map (fun b => b ^^^ 0x36)) ++ msg))

/-- HKDF (RFC 5869) with SHA-512: extract then expand, producing `n` bytes.
The key schedule below reads only 32 bytes, so a single expand block
suffices (`n ≤ 64`). -/
def hkdfSha512 (ikm salt info : List Nat) (n : Nat) : List Nat :=
  (hmacSha512 (hmacSha512 salt ikm) (info ++ [1])).take n

/-! ## SHA-256 (used by the auth tokens) -/

def w32 : Nat := 2 ^ 32

def rotr32 (x n : Nat) : Nat :=
  ((x >>> n) ||| (x <<< (32 - n))) % w32

def not32 (x : Nat) : Nat := w32 - 1 - x

def sha256K : List Nat := [
  1116352408, 1899447441, 3049323471, 3921009573, 961987163, 1508970993,
  2453635748, 2870763221, 3624381080, 310598401, 607225278, 1426881987,
  1925078388, 2162078206, 2614888103, 3248222580, 3835390401, 4022224774,
  264347078, 604807628, 770255983, 1249150122, 1555081692, 1996064986,
  2554220882, 2821834349, 2952996808, 3210313671, 3336571891, 3584528711,
  113926993, 338241895, 666307205, 773529912, 1294757372, 1396182291,
  1695183700, 1986661051, 2177026350, 2456956037, 2730485921, 2820302411,
  3259730800, 3345764771, 3516065817, 3600352804, 4094571909, 275423344,
  430227734, 506948616, 659060556, 883997877, 958139571, 1322822218,
  1537002063, 1747873779, 1955562222, 2024104815, 2227730452, 2361852424,
  2428436474, 2756734187, 3204031479, 3329325298
]

def sha256H0 : List Nat := [
  1779033703, 3144134277,
  1013904242, 2773480762,
  1359893119, 2600822924,
  528734635, 1541459225
]

def bigSigma256_0 (x : Nat) : Nat := rotr32 x 2 ^^^ rotr32 x 13 ^^^ rotr32 x 22
def bigSigma256_1 (x : Nat) : Nat := rotr32 x 6 ^^^ rotr32 x 11 ^^^ rotr32 x 25
def smallSigma256_0 (x : Nat) : Nat := rotr32 x 7 ^^^ rotr32 x 18 ^^^ (x >>> 3)
def smallSigma256_1 (x : Nat) : Nat := rotr32 x 17 ^^^ rotr32 x 19 ^^^ (x >>> 10)

def chF32 (x y z : Nat) : Nat := (x &&& y) ^^^ (not32 x &&& z)
def majF32 (x y z : Nat) : Nat := (x &&& y) ^^^ (x &&& z) ^^^ (y &&& z)

def schedStep256 (acc : List Nat) : List Nat :=
  let t2 := acc.getD 1 0
  let t7 := acc.getD 6 0
  let t15 := acc.getD 14 0
  let t16 := acc.getD 15 0
  ((smallSigma256_1 t2 + t7 + smallSigma256_0 t15 + t16) % w32) :: acc

def schedExtend256 : Nat → List Nat → List Nat
  | 0, acc => acc
  | n + 1, acc => schedExtend256 n (schedStep256 acc)

/-- The 64-word SHA-256 message schedule of a block of 16 words. -/
def schedule256 (ws16 : List Nat) : List Nat :=
  (schedExtend256 48 ws16.reverse).reverse

def round256 (st : List Nat) (kw : Nat × Nat) : List Nat :=
  match st with
  | [a, b, c, d, e, f, g, h] =>
    let t1 := (h + bigSigma256_1 e + chF32 e f g + kw.1 + kw.2) % w32
    let t2 := (bigSigma256_0 a + majF32 a b c) % w32
    [(t1 + t2) % w32, a, b, c, (d + t1) % w32, e, f, g]
  | other => other

def compress256 (hst : List Nat) (block : List Nat) : List Nat :=
  let ws := schedule256 ((chunksF block.length 4 block).map beWord)
  let st := (sha256K.zip ws).foldl round256 hst
  (hst.zip st).map (fun p => (p.1 + p.2) % w32)

/-- SHA-256 padding: a 0x80 byte, zeros, and the 8-byte big-endian bit
length, to a multiple of 64 bytes. -/
def pad256 (msg : List Nat) : List Nat :=
  let l := msg.length
  msg ++ [0x80] ++ List.replicate ((64 - (l + 9) % 64) % 64) 0 ++ beBytes 8 (8 * l)

def sha256 (msg : List Nat) : List Nat :=
  let padded := pad256 msg
  ((chunksF padded.length 64 padded).foldl compress256 sha256H0).flatMap (beBytes 4)

def hmacSha256 (key msg : List Nat) : List Nat :=
  let k0 := if key.length > 64 then sha256 key else key
  let kp := k0 ++ List.replicate (64 - k0.length) 0
  sha256 ((kp.map (fun b => b ^^^ 0x5c)) ++ sha256 ((kp.map (fun b => b ^^^ 0x36)) ++ msg))

/-! ## Protocol constants and errors -/

/-- Error kinds surfaced by the connection (the source uses Go error
values; `outOfFuel` is a modelling artifact standing for a non-terminating
retry loop and is never produced on the inputs of any theorem below). -/
inductive Err where
  | ioErr
  | shortWrite
  | shortBuffer
  | badHeader
  | badMac
  | protocolErr
  | badRekey
  | randomSource
  | outOfFuel
deriving DecidableEq

/-- Command byte of a data record. -/
def pData : Nat := 0

/-- Command byte starting a rekey (server to client). -/
def pStartRekey : Nat := 1

/-- Command byte carrying the client key update during rekey. -/
def pClientKeyUpdate : Nat := 2

/-- Command byte finalizing a rekey (server to client). -/
def pFinalizeRekey : Nat := 3

/-- Byte budget written before the server initiates a rekey. -/
def RekeyAfterBytes : Int := 100 * 1024 * 1024

def cKeySize : Nat := 32

def aesBlockSize : Nat := 16

/-! ## AEAD half-contexts -/

/-- The interface of `cipher.AEAD` as the source uses it: seal and open
with an explicit nonce and empty associated data, plus the nonce and tag
sizes.  The concrete AES-128-GCM instance is an external library and is
injected as a value of this type. -/
structure AEAD where
  sealFn : List Nat → List Nat → List Nat
  openFn : List Nat → List Nat → Option (List Nat)
  nonceSize : Nat
  overhead : Nat

/-- One direction of the connection: an AEAD keyed by `setup` and a nonce
counter.  `key` is a ghost field recording the key passed to `setup`
(the Go `half` does not store it, but the AEAD it holds is keyed by it). -/
structure Half where
  aead : AEAD
  key : List Nat
  seq : List Nat

/-- Increment a nonce as the little-endian loop of `half.incSeq` does:
byte 0 first, each byte that was 255 wraps to 0 and carries on. -/
def incSeq : List Nat → List Nat
  | [] => []
  | c :: rest =>
    if c < 255 then (c + 1) % 256 :: rest
    else (c + 1) % 256 :: incSeq rest

def Half.incSeq (h : Half) : Half := { h with seq := Seconn.incSeq h.seq }

/-- Install a key into a half: build the AEAD (the external
`aes.NewCipher` plus `cipher.NewGCM`, injected as `mkGCM`) and zero the
nonce counter.  The source accepts and ignores the `iv` argument; the
error paths of `aes.NewCipher` cannot fire on the 16-byte keys produced
by the key schedule. -/
def Half.setup (mkGCM : List Nat → AEAD) (key iv : List Nat) : Half :=
  { aead := mkGCM key, key := key, seq := List.replicate (mkGCM key).nonceSize 0 }

/-! ## The connection -/

/-- The connection state (the fields of the source `Conn` struct that
carry protocol state; the carrier itself is passed to each operation as
an explicit byte stream, the write lock is irrelevant to the
single-threaded semantics modelled here, and the wall-clock rekey
deadline is abstracted by a boolean passed to `Write`). -/
structure Conn where
  privKey : Option (List Nat) := none
  pubKey : Option (List Nat) := none
  peerKey : Option (List Nat) := none
  shared : Option (List Nat) := none
  server : Bool := false
  writeBuf : List Nat := []
  readBuf : List Nat := []
  rekeyLeft : Int := 0
  read : Half
  write : Half
  nextPubKey : Option (List Nat) := none
  nextPrivKey : Option (List Nat) := none
  nextPeerKey : Option (List Nat) := none
  nextShared : Option (List Nat) := none
  nextKeys : Option (List (List Nat)) := none
  nextIv : Option (List Nat) := none

/-- Placeholder for the nil `*half` pointers a fresh connection holds
before `Negotiate` keys them. -/
def nilHalf : Half :=
  { aead := { sealFn := fun _ _ => [], openFn := fun _ _ => none
            , nonceSize := 0, overhead := 0 }
  , key := [], seq := [] }

/-- Create a new connection: the source allocates `make([]byte, 128)` for
the write scratch — the literal 128, not the `WriteBufferSize` variable.
The ambient value of that package variable is taken as an argument so
claims about the tunable are statable; as in the source, the body does
not consult it. -/
def NewConn (writeBufferSize : Nat) : Conn :=
  { read := nilHalf, write := nilHalf, writeBuf := List.replicate 128 0 }

/-- Force a rekey on the next server write. -/
def Conn.RekeyNext (c : Conn) : Conn := { c with rekeyLeft := 0 }

/-- Derive the two 16-byte subkeys from the shared secret and salt by
reading 32 bytes from the HKDF-SHA-512 stream: `k1` is the first 16
bytes, `k2` the next 16. -/
def makeKeys (shared salt info : List Nat) : List (List Nat) :=
  let okm := hkdfSha512 shared salt info (2 * aesBlockSize)
  [okm.take aesBlockSize, (okm.drop aesBlockSize).take aesBlockSize]

/-- Key installation of `Negotiate` (source lines 278-290): the server
reads with `newKeys[1]` and writes with `newKeys[0]`; the client reads
with `newKeys[0]` and writes with `newKeys[1]`.  Returns (read half,
write half). -/
def installKeys (mkGCM : List Nat → AEAD) (server : Bool)
    (shared iv : List Nat) : Half × Half :=
  let newKeys := makeKeys shared iv []
  if server then
    (Half.setup mkGCM (newKeys.getD 1 []) iv, Half.setup mkGCM (newKeys.getD 0 []) iv)
  else
    (Half.setup mkGCM (newKeys.getD 0 []) iv, Half.setup mkGCM (newKeys.getD 1 []) iv)

/-- Generate a keypair: read 32 bytes from the random stream as the
private key and derive the public key by curve25519 scalar base
multiplication (external, injected as `curveBase`).  Fails when the
random source cannot supply 32 bytes. -/
def GenerateKey (curveBase : List Nat → List Nat) (rand : List Nat) :
    Except Err (List Nat × List Nat) :=
  if rand.length < 32 then .error .randomSource
  else .ok (curveBase (rand.take 32), rand.take 32)

/-! ## Record emission (write path) -/

/-- The header integer of a command record (`sendBuffer`, source line
510): the command in the low 8 bits, or-ed with the payload length cast
to `uint32` after the shift by 8. -/
def headerIntOf (cmd len : Nat) : Nat := cmd ||| ((len <<< 8) % w32)

/-- The header integer of a data record (`Write`, source line 673): the
chunk length cast to `uint32`, then shifted by 8 (the DATA command byte
is 0, so no or is needed). -/
def dataHeaderInt (len : Nat) : Nat := ((len % w32) <<< 8) % w32

/-- Frame and seal one command record: a sealed 4-byte header holding
`cmd | uint32(len(payload) << 8)` big-endian, then the sealed payload.
Each seal advances the write nonce.  Carrier writes are modelled as
complete, so the short-write branches of the source cannot fire. -/
def Conn.sendBuffer (c : Conn) (cmd : Nat) (payload : List Nat) : Conn × List Nat :=
  let ct1 := c.write.aead.sealFn c.write.seq (beBytes 4 (headerIntOf cmd payload.length))
  let c1 := { c with write := c.write.incSeq }
  let ct2 := c1.write.aead.sealFn c1.write.seq payload
  ({ c1 with write := c1.write.incSeq }, ct1 ++ ct2)

/-- Begin a rekey (server side): reseed the byte budget, generate a fresh
keypair and a fresh 16-byte IV, store them in the "next" slots, and send
them in a START_REKEY record.  The wall-clock deadline reset is not
modelled (no claim depends on it). -/
def Conn.startRekey (curveBase : List Nat → List Nat) (rand : List Nat)
    (c : Conn) : Except Err (Conn × List Nat) :=
  let c := { c with rekeyLeft := RekeyAfterBytes }
  match GenerateKey curveBase rand with
  | .error e => .error e
  | .ok (pub, priv) =>
    let c := { c with nextPubKey := some pub, nextPrivKey := some priv }
    let rand := rand.drop 32
    if rand.length < aesBlockSize then .error .ioErr
    else
      let iv := rand.take aesBlockSize
      let c := { c with nextIv := some iv }
      .ok (c.sendBuffer pStartRekey (pub ++ iv))

/-- Client response to START_REKEY: generate a fresh keypair, send the
public key, derive the next shared secret and keys, and switch the write
half to `nextKeys[1]` immediately.  The source reads `c.nextPrivKey` and
`c.nextPeerKey` through nil-able pointers; `getD` stands for the
dereference (never nil on the paths that reach this call). -/
def Conn.sendClientRekey (mkGCM : List Nat → AEAD)
    (curveBase : List Nat → List Nat)
    (curveMult : List Nat → List Nat → List Nat) (rand : List Nat)
    (c : Conn) : Except Err (Conn × List Nat) :=
  match GenerateKey curveBase rand with
  | .error e => .error e
  | .ok (pub, priv) =>
    let c := { c with nextPubKey := some pub, nextPrivKey := some priv }
    let (c, out) := c.sendBuffer pClientKeyUpdate pub
    let sharedKey := curveMult (c.nextPrivKey.getD []) (c.nextPeerKey.getD [])
    let c := { c with nextShared := some sharedKey }
    let nk := makeKeys sharedKey (c.nextIv.getD []) []
    let c := { c with nextKeys := some nk
                    , write := Half.setup mkGCM (nk.getD 1 []) (c.nextIv.getD []) }
    .ok (c, out)

/-- Server completion of a rekey: send FINALIZE_REKEY (empty payload) on
the still-old write half, then switch the write half to `nextKeys[0]` and
commit the "next" state.  As in the source, `nextPeerKey` is cleared
twice and `nextPubKey` is never cleared. -/
def Conn.sendServerRekeyed (mkGCM : List Nat → AEAD) (c : Conn) :
    Conn × List Nat :=
  let (c, out) := c.sendBuffer pFinalizeRekey []
  let c := { c with
    write := Half.setup mkGCM ((c.nextKeys.getD []).getD 0 []) (c.nextIv.getD [])
    , shared := c.nextShared, privKey := c.nextPrivKey
    , peerKey := c.nextPeerKey, pubKey := c.nextPubKey
    , nextShared := none, nextPrivKey := none, nextPeerKey := none
    , nextIv := none, nextKeys := none }
  (c, out)

/-- One sealed data record of the write loop: a sealed header holding
`uint32(len(chunk)) << 8` big-endian (the DATA command is 0), then the
sealed chunk.  Each seal advances the write nonce. -/
def sealRecord (h : Half) (chunk : List Nat) : Half × List Nat :=
  let ct1 := h.aead.sealFn h.seq (beBytes 4 (dataHeaderInt chunk.length))
  let h := h.incSeq
  let ct2 := h.aead.sealFn h.seq chunk
  (h.incSeq, ct1 ++ ct2)

/-- The chunking loop of `Write` (source lines 662-702): while bytes
remain, take a chunk bounded by the scratch-buffer length and emit one
sealed record for it.  Fuel-driven for kernel evaluation; any
`fuel ≥ buf.length` computes the full loop when `wlen > 0` (with
`wlen = 0` the Go loop would never terminate). -/
def writeChunkLoop : Nat → Half → Nat → List Nat → Half × List Nat
  | 0, h, _, _ => (h, [])
  | fuel + 1, h, wlen, buf =>
    if buf.isEmpty then (h, [])
    else
      let chunk := if wlen ≥ buf.length then buf else buf.take wlen
      let rest := if wlen ≥ buf.length then [] else buf.drop wlen
      let r1 := sealRecord h chunk
      let r2 := writeChunkLoop fuel r1.1 wlen rest
      (r2.1, r1.2 ++ r2.2)

/-- Write data (source lines 638-705).  If this side is the server and no
rekey is in flight (`nextPeerKey` nil), either start a rekey (budget
exhausted or deadline passed, the latter abstracted by `timeUp`) or
charge the budget; then split `buf` into records.  Returns the reported
byte count, the new state, and the bytes put on the carrier. -/
def Conn.Write (curveBase : List Nat → List Nat) (rand : List Nat)
    (timeUp : Bool) (c : Conn) (buf : List Nat) :
    Except Err (Nat × Conn × List Nat) :=
  let pre : Except Err (Conn × List Nat) :=
    if c.server && c.nextPeerKey.isNone then
      if c.rekeyLeft ≤ 0 ∨ timeUp then c.startRekey curveBase rand
      else .ok ({ c with rekeyLeft := c.rekeyLeft - buf.length }, [])
    else .ok (c, [])
  match pre with
  | .error e => .error e
  | .ok (c1, preOut) =>
    let r := writeChunkLoop buf.length c1.write c1.writeBuf.length buf
    .ok (buf.length, { c1 with write := r.1 }, preOut ++ r.2)

/-! ## Record consumption (read path) -/

/-- Read and open a rekey payload of `cnt` bytes (source lines 319-337):
read exactly `cnt` plus the read-half tag length — a short carrier read
surfaces as the carrier error — then open; the nonce advances whether or
not the open succeeds. -/
def Conn.readAndCheck (c : Conn) (wire : List Nat) (cnt : Nat) :
    Except Err (List Nat) × Conn × List Nat :=
  let wireCnt := cnt + c.read.aead.overhead
  if wire.length < wireCnt then (.error .ioErr, c, wire)
  else
    let buf := wire.take wireCnt
    let rest := wire.drop wireCnt
    let res := c.read.aead.openFn c.read.seq buf
    let c := { c with read := c.read.incSeq }
    match res with
    | some pt => (.ok pt, c, rest)
    | none => (.error .badMac, c, rest)

/-- Client handling of START_REKEY (source lines 339-355): the payload
must be a 32-byte public key plus a 16-byte IV; store them and answer
with CLIENT_KEY_UPDATE. -/
def Conn.readRekey (mkGCM : List Nat → AEAD)
    (curveBase : List Nat → List Nat)
    (curveMult : List Nat → List Nat → List Nat) (rand : List Nat)
    (c : Conn) (wire : List Nat) (cnt : Nat) :
    Except Err Unit × Conn × List Nat × List Nat :=
  match c.readAndCheck wire cnt with
  | (.error e, c, w) => (.error e, c, w, [])
  | (.ok buf, c, w) =>
    if buf.length ≠ cKeySize + aesBlockSize then (.error .badRekey, c, w, [])
    else
      let c := { c with nextPeerKey := some (buf.take cKeySize)
                      , nextIv := some (buf.drop cKeySize) }
      match c.sendClientRekey mkGCM curveBase curveMult rand with
      | .error e => (.error e, c, w, [])
      | .ok (c, out) => (.ok (), c, w, out)

/-- Server handling of CLIENT_KEY_UPDATE (source lines 357-381): the
payload must be a 32-byte public key; derive the next keys, switch the
read half to `nextKeys[1]`, and send FINALIZE_REKEY. -/
def Conn.readServerRekeyed (mkGCM : List Nat → AEAD)
    (curveMult : List Nat → List Nat → List Nat)
    (c : Conn) (wire : List Nat) (cnt : Nat) :
    Except Err Unit × Conn × List Nat × List Nat :=
  match c.readAndCheck wire cnt with
  | (.error e, c, w) => (.error e, c, w, [])
  | (.ok buf, c, w) =>
    if buf.length ≠ cKeySize then (.error .badRekey, c, w, [])
    else
      let c := { c with nextPeerKey := some (buf.take cKeySize) }
      let sharedKey := curveMult (c.nextPrivKey.getD []) (c.nextPeerKey.getD [])
      let c := { c with nextShared := some sharedKey }
      let nk := makeKeys sharedKey (c.nextIv.getD []) []
      let c := { c with nextKeys := some nk
                      , read := Half.setup mkGCM (nk.getD 1 []) (c.nextIv.getD []) }
      let (c, out) := c.sendServerRekeyed mkGCM
      (.ok (), c, w, out)

/-- Client handling of FINALIZE_REKEY (source lines 383-408): the payload
must be empty; switch the read half to `nextKeys[0]` and commit the
"next" state (as in the source, `nextPubKey` is not cleared). -/
def Conn.readClientRekeyFinal (mkGCM : List Nat → AEAD)
    (c : Conn) (wire : List Nat) (cnt : Nat) :
    Except Err Unit × Conn × List Nat :=
  match c.readAndCheck wire cnt with
  | (.error e, c, w) => (.error e, c, w)
  | (.ok buf, c, w) =>
    if buf.length ≠ 0 then (.error .badRekey, c, w)
    else
      let c := { c with
        read := Half.setup mkGCM ((c.nextKeys.getD []).getD 0 []) (c.nextIv.getD [])
        , shared := c.nextShared, privKey := c.nextPrivKey
        , peerKey := c.nextPeerKey, pubKey := c.nextPubKey
        , nextShared := none, nextPrivKey := none, nextPeerKey := none
        , nextIv := none, nextKeys := none }
      (.ok (), c, w)

/-- The record loop of `Read` (source lines 419-502).  Read and open a
sealed header (`headerBuf` is sized in the source as 4 plus the write
half tag length), dispatch on the command byte, and for DATA copy the
payload ciphertext into the overflow buffer with `io.CopyN` — whose
result the source ignores, so a short read is not detected here — open
it in place, truncate the buffer to the plaintext, and hand out at most
`bufLen` bytes.  Rekey commands are processed and the loop retries
(fuel-driven; one unit per retry). -/
def Conn.readRetry (mkGCM : List Nat → AEAD)
    (curveBase : List Nat → List Nat)
    (curveMult : List Nat → List Nat → List Nat) (rand : List Nat) :
    Nat → Conn → List Nat → Nat →
    Except Err (List Nat) × Conn × List Nat × List Nat
  | 0, c, wire, _ => (.error .outOfFuel, c, wire, [])
  | fuel + 1, c, wire, bufLen =>
    let headerLen := 4 + c.write.aead.overhead
    if wire.length < headerLen then (.error .ioErr, c, wire, [])
    else
      let headerCt := wire.take headerLen
      let wire1 := wire.drop headerLen
      match c.read.aead.openFn c.read.seq headerCt with
      | none => (.error .badHeader, c, wire1, [])
      | some header =>
        let c := { c with read := c.read.incSeq }
        let cnt0 := uint32BE header
        let cmd := cnt0 &&& 0xff
        let cnt := cnt0 >>> 8
        if cmd = pData then
          let wireCnt := cnt + c.write.aead.overhead
          let c := { c with readBuf := c.readBuf ++ wire1.take wireCnt }
          let wire2 := wire1.drop wireCnt
          match c.read.aead.openFn c.read.seq c.readBuf with
          | none => (.error .badMac, c, wire2, [])
          | some pt =>
            let c := { c with read := c.read.incSeq, readBuf := pt }
            let toExtract := if bufLen < cnt then bufLen else cnt
            if c.readBuf.isEmpty ∧ toExtract ≠ 0 then (.error .ioErr, c, wire2, [])
            else
              let delivered := c.readBuf.take toExtract
              let c := { c with readBuf := c.readBuf.drop toExtract }
              (.ok delivered, c, wire2, [])
        else if cmd = pStartRekey then
          match c.readRekey mkGCM curveBase curveMult rand wire1 cnt with
          | (.error e, c, w, out) => (.error e, c, w, out)
          | (.ok _, c, w, out) =>
            let r := Conn.readRetry mkGCM curveBase curveMult rand fuel c w bufLen
            (r.1, r.2.1, r.2.2.1, out ++ r.2.2.2)
        else if cmd = pClientKeyUpdate then
          match c.readServerRekeyed mkGCM curveMult wire1 cnt with
          | (.error e, c, w, out) => (.error e, c, w, out)
          | (.ok _, c, w, out) =>
            let r := Conn.readRetry mkGCM curveBase curveMult rand fuel c w bufLen
            (r.1, r.2.1, r.2.2.1, out ++ r.2.2.2)
        else if cmd = pFinalizeRekey then
          match c.readClientRekeyFinal mkGCM wire1 cnt with
          | (.error e, c, w) => (.error e, c, w, [])
          | (.ok _, c, w) =>
            Conn.readRetry mkGCM curveBase curveMult rand fuel c w bufLen
        else (.error .protocolErr, c, wire1, [])

/-- Read into a buffer of capacity `bufLen` (source lines 413-503): drain
the plaintext overflow buffer if it has bytes, otherwise consume the next
record.  Returns the delivered plaintext, the new state, the unread
carrier bytes, and any bytes the rekey sub-protocol wrote back. -/
def Conn.Read (mkGCM : List Nat → AEAD)
    (curveBase : List Nat → List Nat)
    (curveMult : List Nat → List Nat → List Nat) (rand : List Nat)
    (fuel : Nat) (c : Conn) (wire : List Nat) (bufLen : Nat) :
    Except Err (List Nat) × Conn × List Nat × List Nat :=
  if c.readBuf ≠ [] ∧ bufLen ≠ 0 then
    (.ok (c.readBuf.take bufLen), { c with readBuf := c.readBuf.drop bufLen }, wire, [])
  else
    c.readRetry mkGCM curveBase curveMult rand fuel wire bufLen

/-! ## Handshake and constructors -/

/-- Negotiate (source lines 182-295).  Both sides generate a keypair,
write `[u32 32][pub]`, read the peer length and 32-byte key (through a
single `Read` call: zero available bytes is the carrier error, a partial
read trips the short-buffer check), compute the shared secret, exchange
the 16-byte IV (client random and sent, server read), seed the rekey
budget, and key both halves.  Returns the result alongside the mutated
state, the unread input, and the bytes written — the state mutations
before a failure persist, as they do in the source. -/
def Conn.Negotiate (mkGCM : List Nat → AEAD)
    (curveBase : List Nat → List Nat)
    (curveMult : List Nat → List Nat → List Nat) (rand : List Nat)
    (server : Bool) (c : Conn) (input : List Nat) :
    Except Err Unit × Conn × List Nat × List Nat :=
  match GenerateKey curveBase rand with
  | .error e => (.error e, c, input, [])
  | .ok (pub, priv) =>
    let rand := rand.drop 32
    let c := { c with pubKey := some pub, privKey := some priv, server := server }
    let out := beBytes 4 (pub.length % w32) ++ pub
    if input.length < 4 then (.error .ioErr, c, input, out)
    else
      let input := input.drop 4
      if input.isEmpty then (.error .ioErr, c, input, out)
      else
        let n := min 32 input.length
        let peer := input.take 32 ++ List.replicate (32 - input.length) 0
        let c := { c with peerKey := some peer }
        let input := input.drop 32
        if n ≠ 32 then (.error .shortBuffer, c, input, out)
        else
          let sharedKey := curveMult priv peer
          let c := { c with shared := some sharedKey }
          let step : Except Err (List Nat × List Nat × List Nat) :=
            if server then
              if input.length < 4 then .error .ioErr
              else
                let ivLen := uint32BE (input.take 4)
                let input := input.drop 4
                if input.length < ivLen then .error .ioErr
                else .ok (input.take ivLen, input.drop ivLen, [])
            else
              if rand.length < aesBlockSize then .error .randomSource
              else
                let iv := rand.take aesBlockSize
                .ok (iv, input, beBytes 4 (iv.length % w32) ++ iv)
          match step with
          | .error e => (.error e, c, input, out)
          | .ok (iv, input, out2) =>
            let c := { c with rekeyLeft := RekeyAfterBytes }
            let halves := installKeys mkGCM server sharedKey iv
            let c := { c with read := halves.1, write := halves.2 }
            (.ok (), c, input, out ++ out2)

/-- Create a connection and negotiate as the client (source lines
136-145).  `NewConn` cannot fail, and the result of `Negotiate` is
discarded, so the caller always receives the connection with a nil
error. -/
def NewClient (mkGCM : List Nat → AEAD)
    (curveBase : List Nat → List Nat)
    (curveMult : List Nat → List Nat → List Nat) (rand : List Nat)
    (input : List Nat) (writeBufferSize : Nat) :
    Except Err (Conn × List Nat × List Nat) :=
  let c := NewConn writeBufferSize
  let r := c.Negotiate mkGCM curveBase curveMult rand false input
  .ok r.2

/-- Create a connection and negotiate as the server (source lines
148-157); the result of `Negotiate` is discarded exactly as in
`NewClient`. -/
def NewServer (mkGCM : List Nat → AEAD)
    (curveBase : List Nat → List Nat)
    (curveMult : List Nat → List Nat → List Nat) (rand : List Nat)
    (input : List Nat) (writeBufferSize : Nat) :
    Except Err (Conn × List Nat × List Nat) :=
  let c := NewConn writeBufferSize
  let r := c.Negotiate mkGCM curveBase curveMult rand true input
  .ok r.2

/-! ## Auth tokens -/

/-- HMAC-SHA-256 of our public key under the shared secret (source lines
305-309; the source dereferences the pointers, which are non-nil after a
successful handshake — `getD` stands for the dereference). -/
def Conn.AuthToken (c : Conn) : List Nat :=
  hmacSha256 (c.shared.getD []) (c.pubKey.getD [])

/-- HMAC-SHA-256 of the peer public key under the shared secret (source
lines 313-317). -/
def Conn.PeerAuthToken (c : Conn) : List Nat :=
  hmacSha256 (c.shared.getD []) (c.peerKey.getD [])

/-! ## Claim harnesses -/

/-- The reader loop of the round-trip property: call `Read` with a
caller buffer of capacity `m` until `target` bytes have accumulated.
`rf` is the retry fuel handed to each `Read` call and `fuel` bounds the
number of calls. -/
def readUntil (mkGCM : List Nat → AEAD)
    (curveBase : List Nat → List Nat)
    (curveMult : List Nat → List Nat → List Nat) (rand : List Nat)
    (rf : Nat) :
    Nat → Conn → List Nat → Nat → Nat → List Nat → Except Err (List Nat)
  | 0, _, _, _, target, acc =>
    if target ≤ acc.length then .ok acc else .error .outOfFuel
  | fuel + 1, c, wire, m, target, acc =>
    if target ≤ acc.length then .ok acc
    else
      match c.Read mkGCM curveBase curveMult rand rf wire m with
      | (.error e, _, _, _) => .error e
      | (.ok d, c, w, _) =>
        readUntil mkGCM curveBase curveMult rand rf fuel c w m target (acc ++ d)

/-- Little-endian integer value of a byte list — byte 0 is least
significant; the big-integer reading of the nonce counter. -/
def leVal : List Nat → Nat
  | [] => 0
  | b :: rest => b + 256 * leVal rest

/-! ## A concrete AEAD for witnesses -/

/-- A concrete stand-in for the injected AES-128-GCM factory, used only
to instantiate witnesses and counterexamples: it appends a 16-byte tag
determined by key and nonce, and open verifies it.  It satisfies the two
properties every AEAD provides (open inverts seal; sealing adds exactly
the tag length). -/
def mockGCM (key : List Nat) : AEAD :=
  { sealFn := fun nonce pt => pt ++ (key ++ nonce ++ List.replicate 16 1).take 16
  , openFn := fun nonce ct =>
      if 16 ≤ ct.length ∧ ct.drop (ct.length - 16) = (key ++ nonce ++ List.replicate 16 1).take 16
      then some (ct.take (ct.length - 16)) else none
  , nonceSize := 12
  , overhead := 16 }

/-- A fixed mock curve25519 scalar base multiplication for witnesses. -/
def mockCurveBase (priv : List Nat) : List Nat :=
  priv.map (fun b => (b + 9) % 256)

/-- A fixed mock curve25519 scalar multiplication for witnesses. -/
def mockCurveMult (priv pub : List Nat) : List Nat :=
  (priv.zip pub).map (fun p => (p.1 * 31 + p.2) % 256)

deriving instance DecidableEq for Except

/-! ## Concrete instances for witnesses and counterexamples -/

def c9client : Conn :=
  { read := nilHalf, write := nilHalf
  , shared := some [1, 2, 3], pubKey := some [4, 5], peerKey := some [6, 7] }

def c9server : Conn :=
  { read := nilHalf, write := nilHalf
  , shared := some [1, 2, 3], pubKey := some [6, 7], peerKey := some [4, 5] }

def c4inflight : Conn :=
  { read := Half.setup mockGCM [9] [], write := Half.setup mockGCM [7] []
  , writeBuf := List.replicate 128 0, server := true, rekeyLeft := 50
  , nextPeerKey := some (List.replicate 32 1) }

def c4proposed : Conn :=
  { read := Half.setup mockGCM [9] [], write := Half.setup mockGCM [7] []
  , writeBuf := List.replicate 128 0, server := true, rekeyLeft := 100
  , nextPubKey := some (List.replicate 32 5)
  , nextPrivKey := some (List.replicate 32 6)
  , nextIv := some (List.replicate 16 7) }

def c5conn : Conn :=
  { NewConn 64 with write := Half.setup mockGCM [7] [] }

def c5write : Except Err (Nat × Conn × List Nat) :=
  c5conn.Write mockCurveBase [] false (List.replicate 100 7)

def c5wire : List Nat := (c5write.toOption.map (fun r => r.2.2)).getD []

def c3reader : Conn :=
  { read := Half.setup mockGCM [3] [], write := Half.setup mockGCM [4] [] }

def c3record : List Nat := (sealRecord (Half.setup mockGCM [3] []) [1, 2, 3, 4, 5]).2

def c3tampered : List Nat := c3record.take (c3record.length - 1) ++ [255]

def c8reader : Conn :=
  { read := Half.setup mockGCM [5] [], write := Half.setup mockGCM [6] [] }

def c8record : List Nat := (sealRecord (Half.setup mockGCM [5] []) [1, 2, 3, 4, 5]).2

def c1writer : Conn :=
  { read := Half.setup mockGCM [8] [], write := Half.setup mockGCM [7] []
  , writeBuf := List.replicate 128 0 }

def c1reader : Conn :=
  { read := Half.setup mockGCM [7] [], write := Half.setup mockGCM [9] [] }

/-! ## Supporting lemmas -/

theorem beBytes_length (n x : Nat) : (beBytes n x).length = n := by
  induction n generalizing x with
  | zero => rfl
  | succ m ih => simp [beBytes, ih]

theorem uint32BE_beBytes (x : Nat) : uint32BE (beBytes 4 x) = x % 2 ^ 32 := by
  show beWord _ = _
  simp only [beBytes, beWord, List.take, List.length, Nat.shiftRight_eq_div_pow]
  norm_num
  omega

theorem lor_shift_and (cmd n : Nat) (hc : cmd < 2 ^ 8) :
    (cmd ||| (n <<< 8)) &&& 255 = cmd := by
  apply Nat.eq_of_testBit_eq
  intro i
  simp only [Nat.testBit_land, Nat.testBit_lor, Nat.testBit_shiftLeft]
  rcases lt_or_ge i 8 with h | h
  · have h255 : Nat.testBit 255 i = true := by
      have h8 : (255 : Nat) = 2 ^ 8 - 1 := by norm_num
      rw [h8, Nat.testBit_two_pow_sub_one]; simpa
    simp [h255, Nat.not_le.mpr h]
  · have h255 : Nat.testBit 255 i = false := by
      have h8 : (255 : Nat) = 2 ^ 8 - 1 := by norm_num
      rw [h8, Nat.testBit_two_pow_sub_one]; simpa using Nat.not_lt.mpr h
    have hcmd : Nat.testBit cmd i = false := by
      apply Nat.testBit_lt_two_pow
      exact lt_of_lt_of_le hc (Nat.pow_le_pow_right (by norm_num) h)
    simp [h255, hcmd]

theorem lor_shift_shr (cmd n : Nat) (hc : cmd < 2 ^ 8) :
    (cmd ||| (n <<< 8)) >>> 8 = n := by
  apply Nat.eq_of_testBit_eq
  intro i
  rw [Nat.testBit_shiftRight]
  simp only [Nat.testBit_lor, Nat.testBit_shiftLeft]
  have hcmd : Nat.testBit cmd (8 + i) = false := by
    apply Nat.testBit_lt_two_pow
    exact lt_of_lt_of_le hc (Nat.pow_le_pow_right (by norm_num) (by omega))
  simp [hcmd, Nat.add_sub_cancel_left, show 8 ≤ 8 + i by omega]

theorem leVal_lt (s : List Nat) (h : ∀ b ∈ s, b < 256) :
    leVal s < 2 ^ (8 * s.length) := by
  induction s with
  | nil => simp [leVal]
  | cons c rest ih =>
    have hc : c < 256 := h c (by simp)
    have hr := ih (fun b hb => h b (by simp [hb]))
    have hp : 2 ^ (8 * (c :: rest).length) = 2 ^ (8 * rest.length) * 256 := by
      have : 8 * (c :: rest).length = 8 * rest.length + 8 := by
        simp [List.length_cons]; ring
      rw [this, pow_add]; norm_num
    rw [hp]
    simp only [leVal]
    omega

/-- Decoding the command byte of a sent header recovers the command. -/
theorem headerIntOf_and (cmd n : Nat) (hc : cmd < 2 ^ 8) (hn : n < 2 ^ 24) :
    uint32BE (beBytes 4 (headerIntOf cmd n)) &&& 0xff = cmd := by
  have hsl : (n <<< 8) % w32 = n <<< 8 := by
    rw [Nat.shiftLeft_eq, w32]
    exact Nat.mod_eq_of_lt (by omega)
  have hbound : headerIntOf cmd n < 2 ^ 32 := by
    rw [headerIntOf, hsl, Nat.lor_comm]
    exact Nat.append_lt hc hn
  rw [uint32BE_beBytes, Nat.mod_eq_of_lt hbound, headerIntOf, hsl]
  exact lor_shift_and cmd n hc

theorem headerIntOf_shr (cmd n : Nat) (hc : cmd < 2 ^ 8) (hn : n < 2 ^ 24) :
    uint32BE (beBytes 4 (headerIntOf cmd n)) >>> 8 = n := by
  have hsl : (n <<< 8) % w32 = n <<< 8 := by
    rw [Nat.shiftLeft_eq, w32]
    exact Nat.mod_eq_of_lt (by omega)
  have hbound : headerIntOf cmd n < 2 ^ 32 := by
    rw [headerIntOf, hsl, Nat.lor_comm]
    exact Nat.append_lt hc hn
  rw [uint32BE_beBytes, Nat.mod_eq_of_lt hbound, headerIntOf, hsl]
  exact lor_shift_shr cmd n hc

theorem dataHeaderInt_eq (n : Nat) : dataHeaderInt n = headerIntOf pData n := by
  rw [dataHeaderInt, headerIntOf, pData]
  simp only [Nat.zero_or, Nat.shiftLeft_eq, w32]
  exact Nat.mod_mul_mod

theorem mockTag_length (key n : List Nat) :
    ((key ++ n ++ List.replicate 16 1).take 16).length = 16 := by
  simp [List.length_take]
  omega

theorem mockGCM_seal_length (key n pt : List Nat) :
    ((mockGCM key).sealFn n pt).length = pt.length + (mockGCM key).overhead := by
  simp only [mockGCM, List.length_append, mockTag_length]

theorem mockGCM_open_seal (key n pt : List Nat) :
    (mockGCM key).openFn n ((mockGCM key).sealFn n pt) = some pt := by
  have htag := mockTag_length key n
  have hct : (pt ++ (key ++ n ++ List.replicate 16 1).take 16).length = pt.length + 16 := by
    rw [List.length_append, htag]
  simp only [mockGCM]
  rw [if_pos]
  · congr 1
    rw [hct, Nat.add_sub_cancel]
    exact List.take_left pt _
  · constructor
    · omega
    · rw [hct, Nat.add_sub_cancel]
      have := List.drop_left pt ((key ++ n ++ List.replicate 16 1).take 16)
      exact this

theorem writeChunkLoop_nil (fuel : Nat) (h : Half) (wlen : Nat) :
    writeChunkLoop fuel h wlen [] = (h, []) := by
  cases fuel <;> simp [writeChunkLoop]

theorem writeChunkLoop_fuel (wlen : Nat) (hw : 0 < wlen) :
    ∀ fuel (h : Half) (buf : List Nat), buf.length ≤ fuel →
      writeChunkLoop fuel h wlen buf = writeChunkLoop buf.length h wlen buf := by
  intro fuel
  induction fuel using Nat.strong_induction_on with
  | _ f ih =>
    intro h buf hb
    match f, buf with
    | f, [] => rw [writeChunkLoop_nil, writeChunkLoop_nil]
    | f + 1, b :: bs =>
      show writeChunkLoop (f + 1) h wlen (b :: bs)
          = writeChunkLoop (bs.length + 1) h wlen (b :: bs)
      simp only [writeChunkLoop, List.isEmpty_cons]
      have hrest : (if wlen ≥ (b :: bs).length then ([] : List Nat) else (b :: bs).drop wlen)
          = (b :: bs).drop wlen := by
        split
        · rw [List.drop_of_length_le (by omega)]
        · rfl
      have hb' : bs.length + 1 ≤ f + 1 := by simpa using hb
      have hlen1 : ((b :: bs).drop wlen).length ≤ f := by
        simp only [List.length_drop, List.length_cons]
        omega
      have hlen2 : ((b :: bs).drop wlen).length ≤ bs.length := by
        simp only [List.length_drop, List.length_cons]
        omega
      rw [hrest, ih f (by omega) _ _ hlen1, ih bs.length (by omega) _ _ hlen2]

theorem writeChunkLoop_step (h : Half) (wlen : Nat) (hw : 0 < wlen)
    (buf : List Nat) (hne : buf ≠ []) :
    writeChunkLoop buf.length h wlen buf
      = ((writeChunkLoop (buf.drop wlen).length (sealRecord h (buf.take wlen)).1 wlen
            (buf.drop wlen)).1,
         (sealRecord h (buf.take wlen)).2
           ++ (writeChunkLoop (buf.drop wlen).length (sealRecord h (buf.take wlen)).1 wlen
                (buf.drop wlen)).2) := by
  match buf with
  | b :: bs =>
    show writeChunkLoop (bs.length + 1) h wlen (b :: bs) = _
    simp only [writeChunkLoop, List.isEmpty_cons]
    have hchunk : (if wlen ≥ (b :: bs).length then (b :: bs) else (b :: bs).take wlen)
        = (b :: bs).take wlen := by
      split
      · rw [List.take_of_length_le (by omega)]
      · rfl
    have hrest : (if wlen ≥ (b :: bs).length then ([] : List Nat) else (b :: bs).drop wlen)
        = (b :: bs).drop wlen := by
      split
      · rw [List.drop_of_length_le (by omega)]
      · rfl
    have hlen1 : ((b :: bs).drop wlen).length ≤ bs.length := by
      simp only [List.length_drop, List.length_cons]
      omega
    simp only [hchunk, hrest, Bool.false_eq_true, if_false]
    rw [writeChunkLoop_fuel wlen hw bs.length _ _ hlen1]

theorem read_drain (mk : List Nat → AEAD) (cb : List Nat → List Nat)
    (cm : List Nat → List Nat → List Nat) (rr : List Nat) (rf : Nat)
    (rc : Conn) (wire : List Nat) (m : Nat)
    (ho : rc.readBuf ≠ []) (hm : m ≠ 0) :
    Conn.Read mk cb cm rr rf rc wire m
      = (.ok (rc.readBuf.take m), { rc with readBuf := rc.readBuf.drop m }, wire, []) := by
  unfold Conn.Read
  rw [if_pos ⟨ho, hm⟩]

theorem read_data_record (mk : List Nat → AEAD) (cb : List Nat → List Nat)
    (cm : List Nat → List Nat → List Nat) (rr : List Nat) (rf : Nat)
    (rc : Conn) (hw : Half) (chunk tail : List Nat) (m : Nat)
    (hopen : ∀ n pt, rc.read.aead.openFn n (hw.aead.sealFn n pt) = some pt)
    (hlen : ∀ n pt, (hw.aead.sealFn n pt).length = pt.length + hw.aead.overhead)
    (hov : rc.write.aead.overhead = hw.aead.overhead)
    (hseq : rc.read.seq = hw.seq)
    (hrb : rc.readBuf = [])
    (hcl : chunk.length < 2 ^ 24)
    (hcne : chunk ≠ []) (hm : 1 ≤ m) :
    Conn.Read mk cb cm rr (rf + 1) rc ((sealRecord hw chunk).2 ++ tail) m
      = (.ok (chunk.take m),
         { rc with read := rc.read.incSeq.incSeq, readBuf := chunk.drop m },
         tail, []) := by
  have hct1 : (sealRecord hw chunk).2
      = hw.aead.sealFn hw.seq (beBytes 4 (dataHeaderInt chunk.length))
        ++ hw.aead.sealFn (Seconn.incSeq hw.seq) chunk := by
    simp [sealRecord, Half.incSeq]
  set hdr := beBytes 4 (dataHeaderInt chunk.length) with hhdr
  set ct1 := hw.aead.sealFn hw.seq hdr with hct1def
  set ct2 := hw.aead.sealFn (Seconn.incSeq hw.seq) chunk with hct2def
  have hl1 : ct1.length = 4 + hw.aead.overhead := by
    rw [hct1def, hlen, hhdr, beBytes_length, Nat.add_comm]
  have hl2 : ct2.length = chunk.length + hw.aead.overhead := by
    rw [hct2def, hlen]
  unfold Conn.Read
  rw [if_neg (by simp [hrb])]
  show Conn.readRetry mk cb cm rr (rf + 1) rc _ m = _
  rw [Conn.readRetry]
  rw [hct1, List.append_assoc]
  have hhl : 4 + rc.write.aead.overhead = ct1.length := by rw [hl1, hov]
  rw [if_neg (by rw [List.length_append, ← hhl]; omega)]
  rw [hhl, List.take_left, List.drop_left]
  rw [hseq]
  have hcmd : uint32BE hdr &&& 255 = pData := by
    rw [hhdr, dataHeaderInt_eq]
    exact headerIntOf_and pData chunk.length (by norm_num [pData]) hcl
  have hcnt : uint32BE hdr >>> 8 = chunk.length := by
    rw [hhdr, dataHeaderInt_eq]
    exact headerIntOf_shr pData chunk.length (by norm_num [pData]) hcl
  have ht : List.take (chunk.length + rc.write.aead.overhead) (ct2 ++ tail) = ct2 := by
    rw [List.take_left' (by rw [hl2, hov])]
  have hd : List.drop (chunk.length + rc.write.aead.overhead) (ct2 ++ tail) = tail := by
    rw [List.drop_left' (by rw [hl2, hov])]
  have hseq2 : (Seconn.incSeq rc.read.seq) = Seconn.incSeq hw.seq := by rw [hseq]
  have hopen2 : rc.read.aead.openFn (Seconn.incSeq hw.seq) ct2 = some chunk := by
    rw [hct2def]
    exact hopen _ _
  have htk : chunk.take (if m < chunk.length then m else chunk.length) = chunk.take m := by
    split
    · rfl
    · rw [List.take_length, List.take_of_length_le (by omega)]
  have hdk : chunk.drop (if m < chunk.length then m else chunk.length) = chunk.drop m := by
    split
    · rfl
    · rw [List.drop_length, List.drop_of_length_le (by omega)]
  have hemp : chunk.isEmpty = false := by
    simpa [List.isEmpty_iff] using hcne
  have hnz : ¬ ((if m < chunk.length then m else chunk.length) = 0) := by
    have := List.length_pos.mpr hcne
    split <;> omega
  simp only [hopen, hcmd, hcnt, hrb, List.nil_append, if_pos, Half.incSeq, hseq2,
    hopen2, ht, hd, htk, hdk, hemp, hnz, Bool.false_eq_true, false_and, if_false,
    reduceIte]

theorem sealRecord_fst_aead (h : Half) (c : List Nat) :
    (sealRecord h c).1.aead = h.aead := by
  simp [sealRecord, Half.incSeq]

theorem sealRecord_fst_seq (h : Half) (c : List Nat) :
    (sealRecord h c).1.seq = Seconn.incSeq (Seconn.incSeq h.seq) := by
  simp [sealRecord, Half.incSeq]

theorem readUntil_aux (mk : List Nat → AEAD) (cb : List Nat → List Nat)
    (cm : List Nat → List Nat → List Nat) (rr : List Nat) (rf : Nat)
    (wlen : Nat) (hwl : 0 < wlen) (hwl2 : wlen < 2 ^ 24) (m : Nat) (hm : 1 ≤ m) :
    ∀ (fuelR : Nat) (rest o acc : List Nat) (rc : Conn) (hw : Half),
      (∀ n pt, rc.read.aead.openFn n (hw.aead.sealFn n pt) = some pt) →
      (∀ n pt, (hw.aead.sealFn n pt).length = pt.length + hw.aead.overhead) →
      rc.write.aead.overhead = hw.aead.overhead →
      rc.read.seq = hw.seq →
      rc.readBuf = o →
      o.length + rest.length ≤ fuelR →
      readUntil mk cb cm rr (rf + 1) fuelR rc
          (writeChunkLoop rest.length hw wlen rest).2 m
          (acc.length + (o.length + rest.length)) acc
        = .ok (acc ++ (o ++ rest)) := by
  intro fuelR
  induction fuelR with
  | zero =>
    intro rest o acc rc hw _ _ _ _ hrb hfl
    have ho : o = [] := List.length_eq_zero.mp (by omega)
    have hr : rest = [] := List.length_eq_zero.mp (by omega)
    subst ho hr
    simp [readUntil]
  | succ f ih =>
    intro rest o acc rc hw hopen hlen hov hseq hrb hfl
    by_cases hoNil : o = []
    · by_cases hrNil : rest = []
      · subst hoNil hrNil
        simp [readUntil]
      · subst hoNil
        have hrpos := List.length_pos.mpr hrNil
        rw [readUntil]
        rw [if_neg (by simp only [List.length_nil]; omega)]
        rw [writeChunkLoop_step hw wlen hwl rest hrNil]
        have hcl : (rest.take wlen).length < 2 ^ 24 := by
          rw [List.length_take]; omega
        have hcne : rest.take wlen ≠ [] := by
          intro h
          have hl := congrArg List.length h
          rw [List.length_take] at hl
          simp only [List.length_nil] at hl
          omega
        rw [read_data_record mk cb cm rr rf rc hw (rest.take wlen) _ m
          hopen hlen hov hseq hrb hcl hcne hm]
        have hsra := sealRecord_fst_aead hw (rest.take wlen)
        have hsrs := sealRecord_fst_seq hw (rest.take wlen)
        have key := ih (rest.drop wlen) ((rest.take wlen).drop m)
          (acc ++ (rest.take wlen).take m)
          { rc with read := rc.read.incSeq.incSeq,
                    readBuf := (rest.take wlen).drop m }
          (sealRecord hw (rest.take wlen)).1
          (by intro n pt
              simp only [Half.incSeq, hsra]
              exact hopen n pt)
          (by intro n pt
              rw [hsra]
              exact hlen n pt)
          (by simp only [hsra]; exact hov)
          (by simp only [Half.incSeq, hsrs, hseq])
          rfl
          (by simp only [List.length_drop, List.length_take]; omega)
        have htn : (acc ++ (rest.take wlen).take m).length
            + (((rest.take wlen).drop m).length + (rest.drop wlen).length)
            = acc.length + (([] : List Nat).length + rest.length) := by
          simp only [List.length_append, List.length_take, List.length_drop,
            List.length_nil]
          omega
        have hls : (acc ++ (rest.take wlen).take m)
            ++ ((rest.take wlen).drop m ++ rest.drop wlen)
            = acc ++ (([] : List Nat) ++ rest) := by
          rw [List.append_assoc, ← List.append_assoc ((rest.take wlen).take m),
            List.take_append_drop, List.take_append_drop]
          simp
        rw [htn, hls] at key
        exact key
    · have hopos := List.length_pos.mpr hoNil
      rw [readUntil]
      rw [if_neg (by omega)]
      rw [read_drain mk cb cm rr (rf + 1) rc _ m (by rw [hrb]; exact hoNil) (by omega)]
      have key := ih rest (o.drop m) (acc ++ o.take m)
        { rc with readBuf := o.drop m } hw
        (by intro n pt; exact hopen n pt)
        hlen hov hseq
        rfl
        (by simp only [List.length_drop]; omega)
      have htn : (acc ++ o.take m).length + ((o.drop m).length + rest.length)
          = acc.length + (o.length + rest.length) := by
        simp only [List.length_append, List.length_take, List.length_drop]
        omega
      have hls : (acc ++ o.take m) ++ (o.drop m ++ rest) = acc ++ (o ++ rest) := by
        rw [List.append_assoc, ← List.append_assoc (o.take m), List.take_append_drop]
      rw [htn, hls] at key
      rw [hrb]
      exact key

/-! ## C7: nonce increment is little-endian successor -/

/-- C7: the nonce increment computes the little-endian successor: for a
nonce of bytes, `incSeq` increments byte 0 first, wraps each 255 byte to
0 with a carry, and the little-endian value of the result is the value
plus one, mod 2 to the bit width. -/
theorem c7_incSeq_le_succ (s : List Nat) (h : ∀ b ∈ s, b < 256) :
    leVal (incSeq s) = (leVal s + 1) % 2 ^ (8 * s.length) := by
  induction s with
  | nil => simp [incSeq, leVal]
  | cons c rest ih =>
    have hc : c < 256 := h c (by simp)
    have hr : ∀ b ∈ rest, b < 256 := fun b hb => h b (by simp [hb])
    have hlt := leVal_lt rest hr
    have hp : 2 ^ (8 * (c :: rest).length) = 2 ^ (8 * rest.length) * 256 := by
      have h8 : 8 * (c :: rest).length = 8 * rest.length + 8 := by
        simp [List.length_cons]; ring
      rw [h8, pow_add]; norm_num
    by_cases hlt255 : c < 255
    · simp only [incSeq, if_pos hlt255, leVal]
      have h1 : (c + 1) % 256 = c + 1 := Nat.mod_eq_of_lt (by omega)
      rw [h1, hp]
      have hb : c + 256 * leVal rest + 1 < 2 ^ (8 * rest.length) * 256 := by omega
      rw [Nat.mod_eq_of_lt hb]
      ring
    · have hc255 : c = 255 := by omega
      simp only [incSeq, if_neg hlt255, leVal]
      rw [ih hr, hp, hc255]
      have h0 : (255 + 1) % 256 = 0 := by norm_num
      rw [h0]
      have hshape : 255 + 256 * leVal rest + 1 = 256 * (leVal rest + 1) := by ring
      have hshape2 : 2 ^ (8 * rest.length) * 256 = 256 * 2 ^ (8 * rest.length) := by ring
      rw [hshape, hshape2, Nat.mul_mod_mul_left]
      omega

/-- Witness for C7 at the concrete nonce `[255, 1]` (carry across one
byte): the incremented nonce has little-endian value 512 = (511 + 1) mod
2 to the 16. -/
theorem c7_incSeq_le_succ_witness :
    (∀ b ∈ [255, 1], b < 256)
      ∧ leVal (incSeq [255, 1]) = (leVal [255, 1] + 1) % 2 ^ (8 * ([255, 1] : List Nat).length) :=
  ⟨by decide, c7_incSeq_le_succ [255, 1] (by decide)⟩

/-! ## C2: key-schedule role mapping -/

/-- C2 (amended): with K0 the first 16 bytes and K1 the next 16 bytes of
the HKDF-SHA-512 output derived from the shared secret and IV, negotiate
keys the client read half with K0 and its write half with K1, and the
server read half with K1 and its write half with K0 — the reverse of the
claimed mapping. -/
theorem c2_role_mapping (mkGCM : List Nat → AEAD) (shared iv : List Nat) :
    ((installKeys mkGCM false shared iv).1.key = (makeKeys shared iv []).getD 0 []
      ∧ (installKeys mkGCM false shared iv).2.key = (makeKeys shared iv []).getD 1 [])
    ∧ ((installKeys mkGCM true shared iv).1.key = (makeKeys shared iv []).getD 1 []
      ∧ (installKeys mkGCM true shared iv).2.key = (makeKeys shared iv []).getD 0 [])
    ∧ (makeKeys shared iv []).getD 0 []
        = (hkdfSha512 shared iv [] (2 * aesBlockSize)).take aesBlockSize
    ∧ (makeKeys shared iv []).getD 1 []
        = ((hkdfSha512 shared iv [] (2 * aesBlockSize)).drop aesBlockSize).take aesBlockSize := by
  refine ⟨⟨?_, ?_⟩, ⟨?_, ?_⟩, ?_, ?_⟩ <;> simp [installKeys, makeKeys, Half.setup]

set_option maxRecDepth 40000 in
/-- Counterexample to C2 as stated: at the all-zero 32-byte shared secret
and all-zero 16-byte IV, the client write half is not keyed with K0 (it
is keyed with K1, and the concrete HKDF-SHA-512 output has K0 different
from K1). -/
theorem c2_counterexample :
    (installKeys mockGCM false (List.replicate 32 0) (List.replicate 16 0)).2.key
      ≠ (makeKeys (List.replicate 32 0) (List.replicate 16 0) []).getD 0 [] := by
  decide

/-! ## C9: auth-token definitions and symmetry -/

/-- C9: the auth token is HMAC-SHA-256 of the own public key under the
shared secret, the peer auth token the same over the peer key; after a
handshake that left both sides with the same shared secret and each
other's public keys, the tokens cross-match. -/
theorem c9_auth_token_symmetry (cl sv : Conn)
    (hsh : cl.shared = sv.shared) (hcp : cl.pubKey = sv.peerKey)
    (hsp : sv.pubKey = cl.peerKey) :
    cl.AuthToken = hmacSha256 (cl.shared.getD []) (cl.pubKey.getD [])
    ∧ cl.PeerAuthToken = hmacSha256 (cl.shared.getD []) (cl.peerKey.getD [])
    ∧ cl.AuthToken = sv.PeerAuthToken
    ∧ sv.AuthToken = cl.PeerAuthToken := by
  refine ⟨rfl, rfl, ?_, ?_⟩ <;>
    simp [Conn.AuthToken, Conn.PeerAuthToken, hsh, hcp, hsp]

/-- Witness for C9 at a concrete matched pair of connections. -/
theorem c9_auth_token_symmetry_witness :
    c9client.AuthToken = hmacSha256 (c9client.shared.getD []) (c9client.pubKey.getD [])
    ∧ c9client.PeerAuthToken = hmacSha256 (c9client.shared.getD []) (c9client.peerKey.getD [])
    ∧ c9client.AuthToken = c9server.PeerAuthToken
    ∧ c9server.AuthToken = c9client.PeerAuthToken :=
  c9_auth_token_symmetry c9client c9server rfl rfl rfl

/-! ## C10: constructors discard the handshake result -/

/-- C10: `NewClient` and `NewServer` discard the result of `Negotiate`:
whenever the handshake fails on a carrier, each still returns the
partially initialized connection state with a nil error, so the caller
cannot see the failure. -/
theorem c10_constructors_swallow_failure (mkGCM : List Nat → AEAD)
    (curveBase : List Nat → List Nat)
    (curveMult : List Nat → List Nat → List Nat)
    (rand input : List Nat) (wbs : Nat) (e₁ e₂ : Err)
    (hc : ((NewConn wbs).Negotiate mkGCM curveBase curveMult rand false input).1
            = .error e₁)
    (hs : ((NewConn wbs).Negotiate mkGCM curveBase curveMult rand true input).1
            = .error e₂) :
    NewClient mkGCM curveBase curveMult rand input wbs
      = .ok ((NewConn wbs).Negotiate mkGCM curveBase curveMult rand false input).2
    ∧ NewServer mkGCM curveBase curveMult rand input wbs
      = .ok ((NewConn wbs).Negotiate mkGCM curveBase curveMult rand true input).2 :=
  ⟨rfl, rfl⟩

/-- Witness for C10: on an empty carrier input both handshakes fail with
the carrier error, yet both constructors return ok. -/
theorem c10_constructors_swallow_failure_witness :
    (((NewConn 128).Negotiate mockGCM mockCurveBase mockCurveMult
        (List.replicate 48 0) false []).1 = .error .ioErr)
    ∧ (((NewConn 128).Negotiate mockGCM mockCurveBase mockCurveMult
        (List.replicate 48 0) true []).1 = .error .ioErr)
    ∧ (NewClient mockGCM mockCurveBase mockCurveMult (List.replicate 48 0) [] 128
        = .ok ((NewConn 128).Negotiate mockGCM mockCurveBase mockCurveMult
            (List.replicate 48 0) false []).2
      ∧ NewServer mockGCM mockCurveBase mockCurveMult (List.replicate 48 0) [] 128
        = .ok ((NewConn 128).Negotiate mockGCM mockCurveBase mockCurveMult
            (List.replicate 48 0) true []).2) := by
  refine ⟨?_, ?_, c10_constructors_swallow_failure mockGCM mockCurveBase mockCurveMult
    (List.replicate 48 0) [] 128 .ioErr .ioErr ?_ ?_⟩ <;> decide

/-! ## C4: the in-flight rekey gate -/

/-- C4 (amended): the gate the source implements keys on `nextPeerKey`
alone: whenever the server's next peer key is non-null, `Write` neither
touches the budget nor starts a rekey — the state changes only by the
write-half nonce advance of the data records, and the carrier receives
exactly the chunked data records. -/
theorem c4_rekey_gate (curveBase : List Nat → List Nat) (rand : List Nat)
    (timeUp : Bool) (c : Conn) (buf : List Nat) (k : List Nat)
    (hk : c.nextPeerKey = some k) :
    c.Write curveBase rand timeUp buf
      = .ok (buf.length,
          { c with write := (writeChunkLoop buf.length c.write c.writeBuf.length buf).1 },
          (writeChunkLoop buf.length c.write c.writeBuf.length buf).2) := by
  unfold Conn.Write
  simp [hk]

/-- Witness for C4 at a server with a client key received mid-rekey. -/
theorem c4_rekey_gate_witness :
    c4inflight.Write mockCurveBase [] false [1, 2, 3]
      = .ok (([1, 2, 3] : List Nat).length,
          { c4inflight with
              write := (writeChunkLoop ([1, 2, 3] : List Nat).length c4inflight.write
                          c4inflight.writeBuf.length [1, 2, 3]).1 },
          (writeChunkLoop ([1, 2, 3] : List Nat).length c4inflight.write
              c4inflight.writeBuf.length [1, 2, 3]).2) :=
  c4_rekey_gate mockCurveBase [] false c4inflight [1, 2, 3] (List.replicate 32 1) rfl

/-- Counterexample to C4 as stated: after the server has proposed a rekey
(next keypair and next IV non-null, client response not yet received, so
next peer key still nil), a write of 4 bytes still decrements the byte
budget from 100 to 96. -/
theorem c4_counterexample :
    (c4proposed.nextPubKey ≠ none ∧ c4proposed.nextPrivKey ≠ none
      ∧ c4proposed.nextIv ≠ none)
    ∧ c4proposed.rekeyLeft = 100
    ∧ (c4proposed.Write mockCurveBase [] false [1, 2, 3, 4]).toOption.map
        (fun r => r.2.1.rekeyLeft) = some 96 := by
  decide

/-! ## C5: write chunking and the WriteBufferSize tunable -/

set_option maxRecDepth 10000 in
/-- C5 at the failing input: with the tunable set to 64, a 100-byte write
on a fresh connection emits one single record whose header declares a
100-byte chunk — the scratch buffer is the literal 128 bytes and the
tunable is never consulted — while the reported count is the length-
preserving 100.  The chunk bound of the claim fails since 100 > 64. -/
theorem c5_tunable_ignored :
    (NewConn 64).writeBuf.length = 128
    ∧ c5write.toOption.map (fun r => r.1) = some 100
    ∧ c5wire.length = 136
    ∧ uint32BE (((mockGCM [7]).openFn (List.replicate 12 0) (c5wire.take 20)).getD []) >>> 8
        = 100
    ∧ ¬ (100 : Nat) ≤ 64 := by
  decide

/-! ## C3: the overflow buffer survives a failed payload open -/

/-- C3 at the failing input: a data record whose payload tag is tampered
makes `Read` fail with the open error, but the overflow buffer is left
holding the whole unauthenticated wire payload, and the next `Read`
call hands exactly those bytes to the caller. -/
theorem c3_overflow_kept_after_bad_mac :
    (Conn.Read mockGCM mockCurveBase mockCurveMult [] 5 c3reader c3tampered 50).1
        = .error .badMac
    ∧ (Conn.Read mockGCM mockCurveBase mockCurveMult [] 5 c3reader c3tampered 50).2.1.readBuf
        = c3tampered.drop 20
    ∧ c3tampered.drop 20 ≠ []
    ∧ (Conn.Read mockGCM mockCurveBase mockCurveMult [] 5
        (Conn.Read mockGCM mockCurveBase mockCurveMult [] 5 c3reader c3tampered 50).2.1
        [] 50).1
      = .ok (c3tampered.drop 20) := by
  decide

/-! ## C8: a short payload read surfaces as an open failure -/

/-- C8 at the failing input: the carrier delivers a valid sealed header
but only 10 of the 21 payload bytes (EOF mid-payload).  The source
ignores the result of `io.CopyN`, so `Read` reports the AEAD open
failure instead of the carrier error; by contrast a carrier failure
while reading the header does surface as the carrier error. -/
theorem c8_short_payload_read_misreported :
    c8record.length = 41
    ∧ (Conn.Read mockGCM mockCurveBase mockCurveMult [] 5 c8reader (c8record.take 30) 50).1
        = .error .badMac
    ∧ (Conn.Read mockGCM mockCurveBase mockCurveMult [] 5 c8reader (c8record.take 30) 50).1
        ≠ .error .ioErr
    ∧ (Conn.Read mockGCM mockCurveBase mockCurveMult [] 5 c8reader (c8record.take 10) 50).1
        = .error .ioErr := by
  decide

/-! ## C6: header encoding round-trips -/

/-- C6: the 4-byte big-endian header built by the write path as
`CMD | (len << 8)` decodes on the read path to the command from the low
8 bits and the length from the high 24 bits, for every command below 256
and every length below 2 to the 24; the header integer of the data write
path agrees with the generic one at `CMD = DATA`. -/
theorem c6_header_round_trip (cmd n : Nat) (hc : cmd < 2 ^ 8) (hn : n < 2 ^ 24) :
    uint32BE (beBytes 4 (headerIntOf cmd n)) &&& 0xff = cmd
    ∧ uint32BE (beBytes 4 (headerIntOf cmd n)) >>> 8 = n
    ∧ dataHeaderInt n = headerIntOf pData n :=
  ⟨headerIntOf_and cmd n hc hn, headerIntOf_shr cmd n hc hn, dataHeaderInt_eq n⟩

/-- Witness for C6 at command 2 (CLIENT_KEY_UPDATE) and length 300. -/
theorem c6_header_round_trip_witness :
    uint32BE (beBytes 4 (headerIntOf 2 300)) &&& 0xff = 2
    ∧ uint32BE (beBytes 4 (headerIntOf 2 300)) >>> 8 = 300
    ∧ dataHeaderInt 300 = headerIntOf pData 300 :=
  c6_header_round_trip 2 300 (by decide) (by decide)

/-! ## C1: round trip of the stream interface -/

/-- C1: round trip of the stream interface.  For every byte sequence B,
if one endpoint writes B successfully (no rekey triggering, per the
gate hypothesis) the write reports len(B) bytes and puts exactly the
chunked sealed records on the carrier, and a peer whose read half
matches the writer write half (same AEAD inverse, same nonce counter —
the state a successful handshake establishes in either direction, per
the role mapping) that repeatedly calls read with any nonzero buffer
capacity accumulates exactly B.  The AEAD is quantified over any
matched seal and open pair, covering both the server-to-client and the
client-to-server direction. -/
theorem c1_round_trip (mk : List Nat → AEAD)
    (cb cbW : List Nat → List Nat) (cm : List Nat → List Nat → List Nat)
    (rr randW : List Nat) (timeUp : Bool) (rf : Nat)
    (wc rc : Conn) (B : List Nat) (m fuelR : Nat)
    (hopen : ∀ n pt, rc.read.aead.openFn n (wc.write.aead.sealFn n pt) = some pt)
    (hlen : ∀ n pt, (wc.write.aead.sealFn n pt).length = pt.length + wc.write.aead.overhead)
    (hov : rc.write.aead.overhead = wc.write.aead.overhead)
    (hseq : rc.read.seq = wc.write.seq)
    (hrb : rc.readBuf = [])
    (hm : 1 ≤ m)
    (hwl : 0 < wc.writeBuf.length) (hwl2 : wc.writeBuf.length < 2 ^ 24)
    (hfuel : B.length ≤ fuelR)
    (hgate : wc.server = true → wc.nextPeerKey = none →
      ¬(wc.rekeyLeft ≤ 0 ∨ timeUp = true)) :
    (∃ c2, wc.Write cbW randW timeUp B
        = .ok (B.length, c2, (writeChunkLoop B.length wc.write wc.writeBuf.length B).2))
    ∧ readUntil mk cb cm rr (rf + 1) fuelR rc
        (writeChunkLoop B.length wc.write wc.writeBuf.length B).2 m B.length []
      = .ok B := by
  constructor
  · unfold Conn.Write
    rcases hsv : wc.server with _ | _
    · exact ⟨{ wc with
          write := (writeChunkLoop B.length wc.write wc.writeBuf.length B).1 },
        by simp [hsv]⟩
    · rcases hpk : wc.nextPeerKey with _ | k
      · have hng := hgate hsv hpk
        refine ⟨{ wc with
            rekeyLeft := wc.rekeyLeft - (B.length : Int)
            write := (writeChunkLoop B.length wc.write wc.writeBuf.length B).1 }, ?_⟩
        simp [hsv, hpk, hng]
      · exact ⟨{ wc with
            write := (writeChunkLoop B.length wc.write wc.writeBuf.length B).1 },
          by simp [hsv, hpk]⟩
  · have key := readUntil_aux mk cb cm rr rf wc.writeBuf.length hwl hwl2 m hm
      fuelR B [] [] rc wc.write hopen hlen hov hseq hrb (by simpa using hfuel)
    simpa using key
set_option maxRecDepth 10000 in
/-- Witness for C1: a writer keyed with the mock AEAD under key [7],
matched by a reader read half with the same key, round-trips the
three-byte message [10, 20, 30] through two-byte reader buffers. -/
theorem c1_round_trip_witness :
    (∃ c2, c1writer.Write mockCurveBase [] false [10, 20, 30]
        = .ok (([10, 20, 30] : List Nat).length, c2,
            (writeChunkLoop ([10, 20, 30] : List Nat).length c1writer.write
              c1writer.writeBuf.length [10, 20, 30]).2))
    ∧ readUntil mockGCM mockCurveBase mockCurveMult [] (0 + 1) 3 c1reader
        (writeChunkLoop ([10, 20, 30] : List Nat).length c1writer.write
          c1writer.writeBuf.length [10, 20, 30]).2 2 ([10, 20, 30] : List Nat).length []
      = .ok [10, 20, 30] :=
  c1_round_trip mockGCM mockCurveBase mockCurveBase mockCurveMult [] [] false 0
    c1writer c1reader [10, 20, 30] 2 3
    (by intro n pt
        simpa [c1reader, c1writer, Half.setup] using mockGCM_open_seal [7] n pt)
    (by intro n pt
        simpa [c1writer, Half.setup] using mockGCM_seal_length [7] n pt)
    (by decide) (by decide) (by decide) (by decide) (by decide) (by decide)
    (by decide) (by decide)

end Seconn
